import Mathlib

/-!
# A shallow embedding of the PyGitUtil conflict-mining scripts

This file embeds the pure/text-processing and control-flow parts of the
PyGitUtil repository (GitUtil.py, extract_merge_conflicts.py,
merge_conflict_extractor.py, merge_conflict_extractor_with_format_patch.py,
list-merge-conflict.py) into Lean and proves properties of the embedding.

Python strings are modelled as `String`, line lists as `List String`, machine
integers do not occur (all indices are small non-negative ints, modelled as
`Nat`; process exit codes as `Int`).  Functions that can raise are modelled
with `Except`.  The external git tool and the file system are out of scope
(spec section 1); where a function consumes their output, that output is a
parameter of the embedding.
-/

namespace PyGitUtil

/-- Python `str.strip()`: remove leading and trailing whitespace. -/
def pyStrip (s : String) : String :=
  ⟨((s.toList.dropWhile Char.isWhitespace).reverse.dropWhile Char.isWhitespace).reverse⟩

/-- Python `s.startswith(pre)`. -/
def pyStartsWith (pre s : String) : Bool :=
  List.isPrefixOf pre.toList s.toList

/-- Helper for Python's substring test: does `p` occur inside the character list? -/
def containsGo (p : List Char) : List Char → Bool
  | [] => List.isPrefixOf p []
  | c :: rest => List.isPrefixOf p (c :: rest) || containsGo p rest

/-- Python `pat in s` (substring containment). -/
def pyContains (pat s : String) : Bool :=
  containsGo pat.toList s.toList

/-! ## RepoCommandRunner: GitUtil.run_git_command (GitUtil.py lines 19-29)

The subprocess result (exit status and captured stdout/stderr) comes from the
external git tool and is passed in as `CmdResult`. -/

/-- The outcome of one `subprocess.run` invocation. -/
structure CmdResult where
  returncode : Int
  stdout : String
  stderr : String
  deriving DecidableEq

/-- `GitUtil.run_git_command(command, cwd, combineStdErr)`.  `error_result` is
initialised to `""`, reassigned from stderr only inside the nonzero-exit branch
(which raises), and appended to the stripped stdout when `combineStdErr` is
set. -/
def run_git_command (command : List String) (res : CmdResult) (combineStdErr : Bool) :
    Except String String :=
  if res.returncode ≠ 0 then
    Except.error ("Git command failed: " ++ String.intercalate " " command ++ "\n"
      ++ pyStrip res.stderr)
  else
    let error_result := ""
    let result := pyStrip res.stdout
    Except.ok (if combineStdErr then result ++ error_result else result)

/-! ## ConflictSectionExtractor: extract_merge_conflicts.py -/

def start_marker : String := "<<<<<<<"
def end_marker : String := ">>>>>>>"

/-- Does the line contain the start marker (Python `start_marker in line`)? -/
def lineHasStart (line : String) : Bool := pyContains start_marker line

/-- Does the line contain the end marker (Python `end_marker in line`)? -/
def lineHasEnd (line : String) : Bool := pyContains end_marker line

/-- The scanning loop of `extract_conflict_line_position_sections` (lines
30-45): `i` is the enumerate counter, the `Option Nat` is the `start_line`
variable.  A start-marker line records a pending start; an end-marker line
appends `[start_line, i]` if a start is pending and resets `start_line` to
None either way; other lines leave the state unchanged. -/
def eclpsGo : List String → Nat → Option Nat → List (Nat × Nat)
  | [], _, _ => []
  | line :: rest, i, start_line =>
    if lineHasStart line then
      eclpsGo rest (i + 1) (some i)
    else if lineHasEnd line then
      (match start_line with
        | some s => [(s, i)]
        | none => []) ++ eclpsGo rest (i + 1) none
    else
      eclpsGo rest (i + 1) start_line

/-- `extract_conflict_line_position_sections(lines)`: the `[start_line, i]`
pairs recorded by one scan of the lines. -/
def extract_conflict_line_position_sections (lines : List String) : List (Nat × Nat) :=
  eclpsGo lines 0 none

/-- `extract_conflict_sections(file_path, margin_line_count)` minus the file
read: for each recorded pair, the slice
`lines[max(s-margin,0) : min(e+margin+1, len(lines))]`.  Python's
`max(section[0]-margin, 0)` over ints coincides with truncated `Nat`
subtraction `s - margin`. -/
def extract_conflict_sections (lines : List String) (margin_line_count : Nat) :
    List (List String) :=
  (extract_conflict_line_position_sections lines).map (fun sec =>
    let start := sec.1 - margin_line_count
    let stop := min (sec.2 + margin_line_count + 1) lines.length
    (lines.drop start).take (stop - start))

/-! ## get_conflict_sections (merge_conflict_extractor.py lines 41-53 and
merge_conflict_extractor_with_format_patch.py lines 78-90, identical code)

This variant uses `line.startswith(...)` and the guard
`elif conflict_start and line.startswith('>>>>>>>')`: Python truthiness, so
the guard also fails when `conflict_start` is the integer 0. -/

/-- The scanning loop of `get_conflict_sections`.  The end branch fires only
when `conflict_start` is truthy, i.e. a pending start at a *nonzero* index. -/
def gcsGo : List String → Nat → Option Nat → List (Nat × Nat)
  | [], _, _ => []
  | line :: rest, i, conflict_start =>
    if pyStartsWith start_marker line then
      gcsGo rest (i + 1) (some i)
    else
      match conflict_start with
      | some s =>
        if s ≠ 0 ∧ pyStartsWith end_marker line then
          (s, i) :: gcsGo rest (i + 1) none
        else
          gcsGo rest (i + 1) (some s)
      | none => gcsGo rest (i + 1) none

/-- The marker pairs recorded by `get_conflict_sections` over the conflicted
file's content (before the margin slice is taken). -/
def gcsPairs (content : List String) : List (Nat × Nat) :=
  gcsGo content 0 none

/-- `get_conflict_sections(conflict_file, repo_path, margin_lines)` minus the
file read: the margin arithmetic is
`get_start_end_position_with_margin_without_another_merge_conflict_section`
(`max(0, s-margin)`, `min(len(content), e+margin+1)`), applied to each
recorded pair and used to slice the content. -/
def get_conflict_sections (content : List String) (margin_lines : Nat) :
    List (List String) :=
  (gcsPairs content).map (fun sec =>
    let cs := sec.1 - margin_lines
    let ce := min (sec.2 + margin_lines + 1) content.length
    (content.drop cs).take (ce - cs))

/-! ## ResolutionLocator: merge_conflict_extractor.py lines 55-101 (the same
code appears in merge_conflict_extractor_with_format_patch.py lines 92-138) -/

/-- The index of the first element satisfying `p` (Python
`for i, line in enumerate(...): if ...: break`). -/
def firstIdx (p : String → Bool) : List String → Option Nat
  | [] => none
  | a :: rest => if p a then some 0 else (firstIdx p rest).map (· + 1)

/-- `get_match_position(source_lines, target_lines)` (lines 70-80): for each
target line (stripped), find the first source line with equal stripped text
and keep the maximum such index over all target lines; 0 when nothing ever
matches. -/
def get_match_position (source_lines target_lines : List String) : Nat :=
  target_lines.foldl (fun result target_line =>
    match firstIdx (fun line => pyStrip line == pyStrip target_line) source_lines with
    | some i => max i result
    | none => result) 0

/-- The inner loop of `get_marker_head_tail` for one section (lines 59-67):
`header` is `section[:i]` for the last start-marker line seen before the first
end-marker line, `footer` is `section[i+1:]` for the first end-marker line
(the loop breaks there); either stays None when the marker is absent. -/
def mhtGo (sec : List String) : List String → Nat → Option (List String) →
    Option (List String) × Option (List String)
  | [], _, header => (header, none)
  | line :: rest, i, header =>
    if pyStartsWith start_marker line then
      mhtGo sec rest (i + 1) (some (sec.take i))
    else if pyStartsWith end_marker line then
      (header, some (sec.drop (i + 1)))
    else
      mhtGo sec rest (i + 1) header

/-- The `[header, footer]` entry `get_marker_head_tail` builds for one
section. -/
def markerHeadTailEntry (sec : List String) :
    Option (List String) × Option (List String) :=
  mhtGo sec sec 0 none

/-- `get_marker_head_tail(conflict_sections)` (lines 55-68): the body builds
the `results` list but has no return statement, so the Python function
returns None — modelled as `Option.none`; the discarded list is kept as a
`let` binding for fidelity. -/
def get_marker_head_tail (conflict_sections : List (List String)) :
    Option (List (Option (List String) × Option (List String))) :=
  let _results := conflict_sections.map markerHeadTailEntry
  none

/-- The Python exceptions that the code under `src/` can raise in
`get_resolved_contents`. -/
inductive PyError where
  /-- e.g. iterating over None -/
  | typeError
  /-- referencing an undefined variable -/
  | nameError
  deriving DecidableEq, Repr

/-- One element appended to `resolved_section`: either a slice of the
reference content or the literal string `"NOT FOUND"`. -/
inductive ResolvedEntry where
  | lines (ls : List String)
  | notFound
  deriving DecidableEq, Repr

/-- The per-marker loop of `get_resolved_contents` (lines 91-101).  A None
header or footer is handed to `get_match_position`, which iterates it: a
TypeError.  `if start_pos and end_pos` is Python truthiness (both nonzero);
that branch evaluates `len(contents)` — but no variable `contents` exists, a
NameError.  Otherwise `"NOT FOUND"` is appended and the loop continues. -/
def resolvedLoop (content : List String) :
    List (Option (List String) × Option (List String)) →
    Except PyError (List ResolvedEntry)
  | [] => Except.ok []
  | (header, footer) :: rest =>
    match header, footer with
    | some h, some f =>
      let start_pos := get_match_position content h
      let end_pos := get_match_position content f
      if start_pos ≠ 0 ∧ end_pos ≠ 0 then
        Except.error PyError.nameError
      else
        (resolvedLoop content rest).map (fun tail => ResolvedEntry.notFound :: tail)
    | _, _ => Except.error PyError.typeError

/-- `get_resolved_contents(conflict_file, repo_path, resolved_repo,
conflict_sections)` (lines 82-101) minus the two subprocess calls: `content`
is the line-split output of `git show` (the reference file).  The function
iterates `get_marker_head_tail(...)` — which is None, so a TypeError is
raised at the `for` statement; and the function body itself ends without a
return statement, so even a normal exit would produce None (`Option.none`),
not the `resolved_section` list. -/
def get_resolved_contents (content : List String)
    (conflict_sections : List (List String)) :
    Except PyError (Option (List ResolvedEntry)) :=
  match get_marker_head_tail conflict_sections with
  | none => Except.error PyError.typeError
  | some markers => (resolvedLoop content markers).map (fun _ => none)

/-! ## PatchStreamSequencer: merge_conflict_extractor_with_format_patch.py -/

/-- A patch file on disk: its path and its text lines. -/
structure PatchFile where
  path : String
  lines : List String
  deriving DecidableEq

/-- Everything after the first `"Date: "` in the line, up to the next
occurrence of the separator: Python `line.split('Date: ')[1]` for a line
starting with `"Date: "`. -/
def untilSep (sep : List Char) : List Char → List Char
  | [] => []
  | c :: rest => if List.isPrefixOf sep (c :: rest) then [] else c :: untilSep sep rest

/-- The stripped date field of a `"Date: "` line. -/
def dateFieldOf (line : String) : String :=
  pyStrip ⟨untilSep "Date: ".toList (line.toList.drop 6)⟩

/-- The scan of `get_patch_date` (the second definition, lines 171-181, which
shadows the first): every `"Date: "` line reassigns `result`; a
`datetime.strptime` failure is caught by the bare `except: pass`, which
abandons the loop and returns the current `result`.  `parse` models
`datetime.strptime(date_str, '%a, %d %b %Y %H:%M:%S %z')` (an external
library call), returning the timestamp or failing. -/
def patchDateGo (parse : String → Option Nat) : List String → Option Nat → Option Nat
  | [], result => result
  | line :: rest, result =>
    if pyStartsWith "Date: " line then
      match parse (dateFieldOf line) with
      | some d => patchDateGo parse rest (some d)
      | none => result
    else
      patchDateGo parse rest result

/-- `get_patch_date(patch_file)` over the file's lines. -/
def get_patch_date (parse : String → Option Nat) (lines : List String) : Option Nat :=
  patchDateGo parse lines none

/-- The patch pooling and ordering of `main` (lines 195-201): the patch files
of every input set are pooled, keyed by `get_patch_date` — files whose date is
None are skipped — and listed in ascending date order.  The dict keys are the
distinct file paths and Python's `sorted` is a stable ascending sort, modelled
by the stable `List.insertionSort`. -/
def sequence_patch_files (parse : String → Option Nat)
    (patch_dirs : List (List PatchFile)) : List PatchFile :=
  (List.insertionSort (fun a b : PatchFile × Nat => a.2 ≤ b.2)
    (patch_dirs.flatten.filterMap
      (fun p => (get_patch_date parse p.lines).map (fun d => (p, d))))).map Prod.fst

/-- A toy timestamp parser standing in for `datetime.strptime` when the
sequencer is evaluated at concrete inputs. -/
def demoParse : String → Option Nat :=
  fun str => if str = "1" then some 1 else if str = "2" then some 2 else none

/-! ## Marker-line classification for the balanced-marker analysis of
`extract_conflict_line_position_sections` -/

/-- Classification of a line by the extractor's two tests (the `elif` makes a
line containing both markers count as a start). -/
inductive MarkKind where
  | start
  | stop
  deriving DecidableEq, Repr

/-- Which marker line (if any) the extractor sees in this line. -/
def lineMark (line : String) : Option MarkKind :=
  if lineHasStart line then some MarkKind.start
  else if lineHasEnd line then some MarkKind.stop
  else none

/-- The sequence of marker lines of a file, in file order. -/
def markerSeq (lines : List String) : List MarkKind :=
  lines.filterMap lineMark

/-- How many pairs the scan records, as an automaton over the marker
sequence; the Bool tracks whether a start is pending. -/
def pairsCount : Bool → List MarkKind → Nat
  | _, [] => 0
  | _, MarkKind.start :: rest => pairsCount true rest
  | true, MarkKind.stop :: rest => pairsCount false rest + 1
  | false, MarkKind.stop :: rest => pairsCount false rest

/-- Balanced conflict markers: the marker lines strictly alternate
start, end, start, end, …, beginning with a start and ending with an end. -/
def balancedMarkers : List MarkKind → Bool
  | [] => true
  | MarkKind.start :: MarkKind.stop :: rest => balancedMarkers rest
  | _ => false

/-! ## WorkspaceReplayer: list-merge-conflict.py

The repository's git metadata is the external shared resource; its observable
state is modelled by `GitState` and each `GitUtil` wrapper by a transition
that can fail (nonzero exit makes `run_git_command` raise).  The monad is
state-threading with exceptions: an exception does *not* roll the git state
back, exactly as in reality. -/

/-- The observable git state of the working directory. -/
structure GitState where
  /-- current HEAD commit id -/
  head : String
  /-- checked-out branch; `none` models a detached HEAD -/
  branch : Option String
  /-- existing local branches: (name, commit it points at) -/
  branches : List (String × String)
  /-- a merge is in progress (MERGE_HEAD exists) -/
  mergeInProgress : Bool
  /-- the working tree has uncommitted modifications (git status is nonempty) -/
  dirty : Bool
  /-- number of entries on the stash stack -/
  stashDepth : Nat
  deriving DecidableEq, Repr

/-- A raised Python exception (here always a `run_git_command` failure or an
I/O error while reading a conflicted file). -/
inductive GitErr where
  | failure (msg : String)
  deriving DecidableEq, Repr

/-- State-plus-exceptions: each step maps a git state to a result (or a raised
exception) together with the state it left behind. -/
def GitM (α : Type) : Type := GitState → Except GitErr α × GitState

/-- return -/
def gitPure {α : Type} (a : α) : GitM α := fun s => (Except.ok a, s)

/-- sequencing; an exception skips the continuation but keeps the state. -/
def gitBind {α β : Type} (x : GitM α) (f : α → GitM β) : GitM β := fun s =>
  match x s with
  | (Except.ok a, s') => f a s'
  | (Except.error e, s') => (Except.error e, s')

instance : Monad GitM where
  pure := gitPure
  bind := gitBind

def gitGet : GitM GitState := fun s => (Except.ok s, s)

def gitSet (s' : GitState) : GitM Unit := fun _ => (Except.ok (), s')

def gitThrow {α : Type} (e : GitErr) : GitM α := fun s => (Except.error e, s)

/-- Python `try: body except Exception as e: handler(e)`. -/
def gitTry {α : Type} (body : GitM α) (handler : GitErr → GitM α) : GitM α := fun s =>
  match body s with
  | (Except.ok a, s') => (Except.ok a, s')
  | (Except.error e, s') => handler e s'

/-- Python `try: body finally: fin`: `fin` always runs; an exception raised by
`fin` replaces the in-flight result. -/
def gitFinally {α : Type} (body : GitM α) (fin : GitM Unit) : GitM α := fun s =>
  match body s with
  | (Except.ok a, s') =>
    (match fin s' with
      | (Except.ok _, s'') => (Except.ok a, s'')
      | (Except.error e, s'') => (Except.error e, s''))
  | (Except.error e, s') =>
    (match fin s' with
      | (Except.ok _, s'') => (Except.error e, s'')
      | (Except.error e', s'') => (Except.error e', s''))

/-- The commit a branch name points at, if the branch exists. -/
def lookupBranch (s : GitState) (b : String) : Option String :=
  (s.branches.find? (fun e => e.1 == b)).map (fun e => e.2)

/-- Update the commit a branch points at. -/
def setBranchCommit (bs : List (String × String)) (b c : String) :
    List (String × String) :=
  bs.map (fun e => if e.1 == b then (b, c) else e)

/-- `GitUtil.get_current_head`: `git rev-parse HEAD`. -/
def get_current_head : GitM String := do
  let s ← gitGet
  gitPure s.head

/-- `GitUtil.get_current_branch`: `git rev-parse --abbrev-ref HEAD`; on a
detached HEAD git prints the literal `HEAD`. -/
def get_current_branch : GitM String := do
  let s ← gitGet
  match s.branch with
  | some b => gitPure b
  | none => gitPure "HEAD"

/-- `GitUtil.get_status()` is nonempty iff the tree has modifications. -/
def get_status_nonempty : GitM Bool := do
  let s ← gitGet
  gitPure s.dirty

/-- `GitUtil.stash_changes`: `git stash push` stores the modifications and
cleans the tree; with nothing to save it exits 0 and stores nothing. -/
def stash_changes : GitM Unit := do
  let s ← gitGet
  if s.dirty then
    gitSet { s with dirty := false, stashDepth := s.stashDepth + 1 }
  else
    gitPure ()

/-- `GitUtil.pop_stash`: `git stash pop` fails when the stash is empty,
otherwise re-applies the top entry (the tree becomes modified again). -/
def pop_stash : GitM Unit := do
  let s ← gitGet
  match s.stashDepth with
  | 0 => gitThrow (GitErr.failure "git stash pop")
  | n + 1 => gitSet { s with stashDepth := n, dirty := true }

/-- `GitUtil.checkout_branch`: fails for a nonexistent branch, otherwise
attaches HEAD to it (here always from the same commit the branch points at,
so local modifications carry over). -/
def checkout_branch (b : String) : GitM Unit := do
  let s ← gitGet
  match lookupBranch s b with
  | some c => gitSet { s with branch := some b, head := c }
  | none => gitThrow (GitErr.failure "git checkout <branch>")

/-- `GitUtil.checkout_commit`: detaches HEAD at the commit; refuses while a
merge is in progress or the tree is modified (conservative model of git's
refusal to overwrite local state). -/
def checkout_commit (c : String) : GitM Unit := do
  let s ← gitGet
  if s.mergeInProgress || s.dirty then
    gitThrow (GitErr.failure "git checkout <commit>")
  else
    gitSet { s with branch := none, head := c }

/-- `GitUtil.reset_hard`: moves HEAD (and the checked-out branch, if any) to
the commit, discards modifications and any merge state. -/
def reset_hard (c : String) : GitM Unit := do
  let s ← gitGet
  gitSet { s with
    head := c
    branches := match s.branch with
      | some b => setBranchCommit s.branches b c
      | none => s.branches
    dirty := false
    mergeInProgress := false }

/-- `GitUtil.create_temp_branch`: `git checkout -b temp-branch` fails when the
branch already exists, otherwise creates it at HEAD and checks it out. -/
def create_temp_branch : GitM String := do
  let s ← gitGet
  match lookupBranch s "temp-branch" with
  | some _ => gitThrow (GitErr.failure "git checkout -b temp-branch")
  | none => do
    gitSet { s with branches := s.branches ++ [("temp-branch", s.head)],
                    branch := some "temp-branch" }
    gitPure "temp-branch"

/-- `GitUtil.delete_branch`: `git branch -D` refuses to delete the checked-out
branch and fails for a nonexistent one. -/
def delete_branch (b : String) : GitM Unit := do
  let s ← gitGet
  if s.branch == some b then
    gitThrow (GitErr.failure "git branch -D: checked out")
  else
    match lookupBranch s b with
    | some _ => gitSet { s with branches := s.branches.filter (fun e => e.1 != b) }
    | none => gitThrow (GitErr.failure "git branch -D: no such branch")

/-- `GitUtil.abort_merge`: `git merge --abort` fails when no merge is in
progress, otherwise discards the merge state and its tree modifications. -/
def abort_merge : GitM Unit := do
  let s ← gitGet
  if s.mergeInProgress then
    gitSet { s with mergeInProgress := false, dirty := false }
  else
    gitThrow (GitErr.failure "git merge --abort")

/-- The oracle for one iteration of the merge-replay loop: the merge parents
(`get_commit_parents` output) and how the external git behaves for this merge
point. -/
structure MergeCase where
  parent1 : String
  parent2 : String
  /-- the merge begins (MERGE_HEAD is created and the tree is touched) -/
  mergeStarts : Bool
  /-- the merge command exits nonzero, so `run_git_command` raises -/
  mergeRaises : Bool
  /-- paths `git status` later reports as unmerged (`UU `) -/
  conflictFiles : List String
  /-- the conflict-handling caller (`get_file_content`) raises at this file
  index, modelling an exception partway through processing conflicted files -/
  faultAt : Option Nat
  deriving DecidableEq, Repr

/-- `GitUtil.merge_no_commit(parent2)`: on a conflict (or other failure after
the merge began) the merge state stays behind and the wrapper raises; a merge
that fails before starting leaves the state alone; a successful `--no-commit`
merge leaves MERGE_HEAD and staged changes behind and returns the combined
output. -/
def merge_no_commit (mc : MergeCase) : GitM String := do
  let s ← gitGet
  if mc.mergeRaises then do
    if mc.mergeStarts then
      gitSet { s with mergeInProgress := true, dirty := true }
    else
      gitPure ()
    gitThrow (GitErr.failure "git merge")
  else do
    gitSet { s with mergeInProgress := true, dirty := true }
    gitPure "merge output"

/-- `GitUtil.get_conflict_files()`: reads `git status`; the reported unmerged
paths are this iteration's oracle value. -/
def get_conflict_files (mc : MergeCase) : GitM (List String) :=
  gitPure mc.conflictFiles

/-- The per-file conflict handling of `main` (lines 153-156): each conflicted
file is read (`get_file_content`) and printed; reading raises at the oracle's
fault index. -/
def handleFilesGo (faultAt : Option Nat) : List String → Nat → GitM Unit
  | [], _ => gitPure ()
  | _f :: rest, k =>
    if faultAt == some k then
      gitThrow (GitErr.failure "get_file_content")
    else
      handleFilesGo faultAt rest (k + 1)

/-- The body of the inner `try` (`main`, lines 142-156): merge, list the
conflicted files, handle each one. -/
def replay_inner (mc : MergeCase) : GitM Unit := do
  let _result ← merge_no_commit mc
  let conflict_files ← get_conflict_files mc
  handleFilesGo mc.faultAt conflict_files 0

/-- The inner `finally` block (`main`, lines 160-168): abort the merge
(swallowing its failure when no merge is in progress), return to the original
head, delete the temp branch. -/
def replay_cleanup (current_head temp_branch : String) : GitM Unit := do
  gitTry abort_merge (fun _e => gitPure ())
  checkout_commit current_head
  delete_branch temp_branch

/-- One pass of the merge-replay loop body (`main`, lines 138-168): create the
temp branch, reset it to the first parent, then
`try: merge + list + handle conflicts  except: print  finally: try-abort,
checkout original head, delete temp branch`. -/
def replay_iteration (current_head : String) (mc : MergeCase) : GitM Unit := do
  let temp_branch ← create_temp_branch
  reset_hard mc.parent1
  gitFinally
    (gitTry (replay_inner mc) (fun _e => gitPure ()))
    (replay_cleanup current_head temp_branch)

/-- The `for merge_commit in merge_commits` loop over the oracle list. -/
def iterAll (current_head : String) : List MergeCase → GitM Unit
  | [] => gitPure ()
  | mc :: rest => do
    replay_iteration current_head mc
    iterAll current_head rest

/-- `main` (lines 120-176) minus the prints: snapshot head and branch, decide
`stash_needed` from `git status` (in Python the flag is set before anything in
the try block can raise, so it is computed ahead of the block here), then
`try: stash-if-needed + loop  finally: pop-stash-if-needed + checkout original
branch`.  `get_merge_commits`/`get_commit_parents` are git queries whose
answers are the oracle list. -/
def replay_main (cases : List MergeCase) : GitM Unit := do
  let current_head ← get_current_head
  let current_branch ← get_current_branch
  let stash_needed ← get_status_nonempty
  gitFinally
    (do
      if stash_needed then stash_changes else gitPure ()
      iterAll current_head cases)
    (do
      if stash_needed then pop_stash else gitPure ()
      checkout_branch current_branch)

/-- The whole of `main`: the outermost `except Exception` only prints. -/
def replay_run (cases : List MergeCase) : GitM Unit :=
  gitTry (replay_main cases) (fun _e => gitPure ())

/-! ## Supporting lemmas -/

/-- A successful `firstIdx` names an element that satisfies the predicate. -/
theorem firstIdx_some {p : String → Bool} :
    ∀ {l : List String} {i : Nat}, firstIdx p l = some i →
      ∃ x, l[i]? = some x ∧ p x = true := by
  intro l
  induction l with
  | nil => intro i h; simp [firstIdx] at h
  | cons a rest ih =>
    intro i h
    by_cases hp : p a
    · simp only [firstIdx, hp, if_true, Option.some.injEq] at h
      exact ⟨a, by simp [← h], hp⟩
    · simp only [firstIdx, hp, if_false, Bool.false_eq_true, Option.map_eq_some'] at h
      obtain ⟨j, hj, rfl⟩ := h
      obtain ⟨x, hx, hpx⟩ := ih hj
      exact ⟨x, by simpa using hx, hpx⟩

/-- Every pair recorded by the `get_conflict_sections` scan has a nonzero
start index: the closing guard `conflict_start and line.startswith('>>>>>>>')`
is Python truthiness, which rejects a pending start at index 0. -/
theorem gcsGo_fst_ne_zero :
    ∀ (ls : List String) (i : Nat) (st : Option Nat),
      ∀ p ∈ gcsGo ls i st, p.1 ≠ 0 := by
  intro ls
  induction ls with
  | nil => intro i st p hp; simp [gcsGo] at hp
  | cons line rest ih =>
    intro i st p hp
    unfold gcsGo at hp
    split at hp
    · exact ih _ _ p hp
    · split at hp
      · rename_i s
        split at hp
        · rename_i hguard
          rcases List.mem_cons.mp hp with rfl | hp
          · exact hguard.1
          · exact ih _ _ p hp
        · exact ih _ _ p hp
      · exact ih _ _ p hp

/-- The scan records exactly `pairsCount` pairs, the Bool tracking the
pending-start state. -/
theorem eclpsGo_length :
    ∀ (ls : List String) (i : Nat) (st : Option Nat),
      (eclpsGo ls i st).length = pairsCount st.isSome (markerSeq ls) := by
  intro ls
  induction ls with
  | nil => intro i st; cases st <;> rfl
  | cons line rest ih =>
    intro i st
    rcases h1 : lineHasStart line with _ | _
    · rcases h2 : lineHasEnd line with _ | _
      · have hms : markerSeq (line :: rest) = markerSeq rest := by
          simp [markerSeq, lineMark, h1, h2]
        have heq : eclpsGo (line :: rest) i st = eclpsGo rest (i + 1) st := by
          simp [eclpsGo, h1, h2]
        rw [heq, hms, ih]
      · have hms : markerSeq (line :: rest) = MarkKind.stop :: markerSeq rest := by
          simp [markerSeq, lineMark, h1, h2]
        rw [hms]
        cases st with
        | none =>
          have heq : eclpsGo (line :: rest) i none = eclpsGo rest (i + 1) none := by
            simp [eclpsGo, h1, h2]
          rw [heq, ih]
          rfl
        | some s =>
          have heq : eclpsGo (line :: rest) i (some s) =
              (s, i) :: eclpsGo rest (i + 1) none := by
            simp [eclpsGo, h1, h2]
          rw [heq]
          simp [pairsCount, ih]
    · have hms : markerSeq (line :: rest) = MarkKind.start :: markerSeq rest := by
        simp [markerSeq, lineMark, h1]
      have heq : eclpsGo (line :: rest) i st = eclpsGo rest (i + 1) (some i) := by
        simp [eclpsGo, h1]
      rw [heq, hms, ih]
      cases st <;> rfl

/-- Under balanced markers the automaton counts one pair per start/end
couple, i.e. half the marker lines. -/
theorem pairsCount_balanced :
    ∀ ms, balancedMarkers ms = true → pairsCount false ms = ms.length / 2
  | [], _ => rfl
  | MarkKind.start :: MarkKind.stop :: rest, h => by
    have ih := pairsCount_balanced rest (by simpa [balancedMarkers] using h)
    simp [pairsCount, ih]
    omega
  | MarkKind.start :: [], h => by simp [balancedMarkers] at h
  | MarkKind.start :: MarkKind.start :: _, h => by simp [balancedMarkers] at h
  | MarkKind.stop :: _, h => by simp [balancedMarkers] at h

/-- Invariant of the scan over the suffix `full.drop i`: every recorded pair
starts at or after the pending start (or the current position), is strictly
ordered, and points at marker lines of the full file; the recorded pairs are
pairwise disjoint and ascending. -/
theorem eclpsGo_pairs (full : List String) :
    ∀ (ls : List String) (i : Nat) (st : Option Nat),
      full.drop i = ls →
      (∀ s, st = some s →
        s < i ∧ ∃ la, full[s]? = some la ∧ lineHasStart la = true) →
      (∀ p ∈ eclpsGo ls i st,
        (match st with | some s => s | none => i) ≤ p.1 ∧ p.1 < p.2 ∧
        (∃ la, full[p.1]? = some la ∧ lineHasStart la = true) ∧
        (∃ lb, full[p.2]? = some lb ∧ lineHasEnd lb = true)) ∧
      List.Pairwise (fun p q : Nat × Nat => p.2 < q.1) (eclpsGo ls i st) := by
  intro ls
  induction ls with
  | nil =>
    intro i st _ _
    exact ⟨by intro p hp; simp [eclpsGo] at hp, by simp [eclpsGo]⟩
  | cons line rest ih =>
    intro i st hdrop hst
    have hline : full[i]? = some line := by
      have h0 := List.getElem?_drop full i 0
      rw [hdrop] at h0
      simpa using h0.symm
    have hrest : full.drop (i + 1) = rest := by
      have h0 := List.drop_drop 1 i full
      rw [hdrop] at h0
      simpa using h0.symm
    rcases h1 : lineHasStart line with _ | _
    · rcases h2 : lineHasEnd line with _ | _
      · -- a plain line: state and output unchanged, position advances
        have heq : eclpsGo (line :: rest) i st = eclpsGo rest (i + 1) st := by
          simp [eclpsGo, h1, h2]
        rw [heq]
        have hst' : ∀ s, st = some s →
            s < i + 1 ∧ ∃ la, full[s]? = some la ∧ lineHasStart la = true := by
          intro s hs
          obtain ⟨hlt, hla⟩ := hst s hs
          exact ⟨Nat.lt_succ_of_lt hlt, hla⟩
        obtain ⟨hmem, hpw⟩ := ih (i + 1) st hrest hst'
        refine ⟨?_, hpw⟩
        intro p hp
        obtain ⟨hlb, hrest'⟩ := hmem p hp
        cases st with
        | none => exact ⟨le_trans (Nat.le_succ i) hlb, hrest'⟩
        | some s => exact ⟨hlb, hrest'⟩
      · -- an end-marker line
        cases st with
        | some s =>
          have heq : eclpsGo (line :: rest) i (some s) =
              (s, i) :: eclpsGo rest (i + 1) none := by
            simp [eclpsGo, h1, h2]
          rw [heq]
          obtain ⟨hs_lt, hs_la⟩ := hst s rfl
          obtain ⟨hmem, hpw⟩ := ih (i + 1) none hrest (by intro s' hs'; simp at hs')
          constructor
          · intro p hp
            rcases List.mem_cons.mp hp with rfl | hp
            · exact ⟨le_refl s, hs_lt, hs_la, ⟨line, hline, h2⟩⟩
            · obtain ⟨hb, h3⟩ := hmem p hp
              exact ⟨le_trans (le_of_lt hs_lt) (le_trans (Nat.le_succ i) hb), h3⟩
          · refine List.Pairwise.cons ?_ hpw
            intro q hq
            obtain ⟨hb, _⟩ := hmem q hq
            exact hb
        | none =>
          have heq : eclpsGo (line :: rest) i none = eclpsGo rest (i + 1) none := by
            simp [eclpsGo, h1, h2]
          rw [heq]
          obtain ⟨hmem, hpw⟩ := ih (i + 1) none hrest (by intro s' hs'; simp at hs')
          refine ⟨?_, hpw⟩
          intro p hp
          obtain ⟨hb, h3⟩ := hmem p hp
          exact ⟨le_trans (Nat.le_succ i) hb, h3⟩
    · -- a start-marker line: the pending start becomes `i`
      have heq : eclpsGo (line :: rest) i st = eclpsGo rest (i + 1) (some i) := by
        simp [eclpsGo, h1]
      rw [heq]
      have hst' : ∀ s', some i = some s' →
          s' < i + 1 ∧ ∃ la, full[s']? = some la ∧ lineHasStart la = true := by
        intro s' hs'
        cases hs'
        exact ⟨Nat.lt_succ_self i, ⟨line, hline, h1⟩⟩
      obtain ⟨hmem, hpw⟩ := ih (i + 1) (some i) hrest hst'
      refine ⟨?_, hpw⟩
      intro p hp
      obtain ⟨hb, h3⟩ := hmem p hp
      cases st with
      | none => exact ⟨hb, h3⟩
      | some s =>
        obtain ⟨hs_lt, _⟩ := hst s rfl
        exact ⟨le_trans (le_of_lt hs_lt) hb, h3⟩

/-! ## Claim C7 -/

/-- C7: for every input with balanced conflict markers, the extractor records
exactly one `[start, end]` pair per marker pair, in ascending and pairwise
non-overlapping order, and each pair points at the line bearing the start
marker and the line bearing the end marker. -/
theorem c7_balanced_extraction (lines : List String)
    (hbal : balancedMarkers (markerSeq lines) = true) :
    (extract_conflict_line_position_sections lines).length =
      (markerSeq lines).length / 2 ∧
    List.Pairwise (fun p q : Nat × Nat => p.2 < q.1)
      (extract_conflict_line_position_sections lines) ∧
    ∀ p ∈ extract_conflict_line_position_sections lines,
      p.1 < p.2 ∧
      (∃ la, lines[p.1]? = some la ∧ lineHasStart la = true) ∧
      (∃ lb, lines[p.2]? = some lb ∧ lineHasEnd lb = true) := by
  obtain ⟨hmem, hpw⟩ :=
    eclpsGo_pairs lines lines 0 none (by simp) (by intro s hs; simp at hs)
  refine ⟨?_, hpw, ?_⟩
  · rw [extract_conflict_line_position_sections, eclpsGo_length]
    simpa using pairsCount_balanced _ hbal
  · intro p hp
    obtain ⟨_, h2, h3, h4⟩ := hmem p hp
    exact ⟨h2, h3, h4⟩

/-- Witness for C7 at the spec's scenario-A conflict with one marker pair. -/
theorem c7_witness :
    (extract_conflict_line_position_sections
        ["ctx1", "<<<<<<< A", "left", "=======", "right", ">>>>>>> B", "ctx2"]).length =
      (markerSeq
        ["ctx1", "<<<<<<< A", "left", "=======", "right", ">>>>>>> B", "ctx2"]).length / 2 ∧
    List.Pairwise (fun p q : Nat × Nat => p.2 < q.1)
      (extract_conflict_line_position_sections
        ["ctx1", "<<<<<<< A", "left", "=======", "right", ">>>>>>> B", "ctx2"]) ∧
    ∀ p ∈ extract_conflict_line_position_sections
        ["ctx1", "<<<<<<< A", "left", "=======", "right", ">>>>>>> B", "ctx2"],
      p.1 < p.2 ∧
      (∃ la, ["ctx1", "<<<<<<< A", "left", "=======", "right", ">>>>>>> B", "ctx2"][p.1]? =
        some la ∧ lineHasStart la = true) ∧
      (∃ lb, ["ctx1", "<<<<<<< A", "left", "=======", "right", ">>>>>>> B", "ctx2"][p.2]? =
        some lb ∧ lineHasEnd lb = true) :=
  c7_balanced_extraction
    ["ctx1", "<<<<<<< A", "left", "=======", "right", ">>>>>>> B", "ctx2"] (by decide)

/-! ## Claim C8 -/

/-- C8: the `k`-th extracted section is the `k`-th recorded pair widened by
the margin on each side and clamped to the file's line range: its length is
`min (e+margin+1) len − (s−margin)`, its `j`-th line is line `(s−margin)+j`
of the file, and a conflict beginning at line 0 expands to a prefix of the
file — start stays 0 — regardless of the requested margin.  (`s − margin` is
truncated subtraction, i.e. Python's `max(s-margin, 0)`.) -/
theorem c8_margin_clamping (lines : List String) (margin k s e : Nat)
    (hk : (extract_conflict_line_position_sections lines)[k]? = some (s, e)) :
    ∃ sec, (extract_conflict_sections lines margin)[k]? = some sec ∧
      sec.length = min (e + margin + 1) lines.length - (s - margin) ∧
      (∀ j : Fin sec.length, sec[j.1]? = lines[(s - margin) + j.1]?) ∧
      (s = 0 → sec = lines.take (min (e + margin + 1) lines.length)) := by
  refine ⟨(lines.drop (s - margin)).take
      (min (e + margin + 1) lines.length - (s - margin)), ?_, ?_, ?_, ?_⟩
  · unfold extract_conflict_sections
    rw [List.getElem?_map, hk]
    rfl
  · rw [List.length_take, List.length_drop]
    exact Nat.min_eq_left (Nat.sub_le_sub_right (Nat.min_le_right _ _) _)
  · intro j
    have hj : j.1 < min (e + margin + 1) lines.length - (s - margin) := by
      have h2 := j.2
      have h3 : ((lines.drop (s - margin)).take
          (min (e + margin + 1) lines.length - (s - margin))).length ≤
          min (e + margin + 1) lines.length - (s - margin) := by
        rw [List.length_take]
        exact Nat.min_le_left _ _
      exact lt_of_lt_of_le h2 h3
    rw [List.getElem?_take, if_pos hj, List.getElem?_drop]
  · intro hs0
    subst hs0
    simp

/-- Witness for C8: a conflict whose start marker is line 0 and a margin far
larger than the file. -/
theorem c8_witness :
    ∃ sec, (extract_conflict_sections ["<<<<<<< A", "x", ">>>>>>> B", "t"] 5)[0]? =
        some sec ∧
      sec.length = min (2 + 5 + 1) (["<<<<<<< A", "x", ">>>>>>> B", "t"] : List String).length
        - (0 - 5) ∧
      (∀ j : Fin sec.length,
        sec[j.1]? = (["<<<<<<< A", "x", ">>>>>>> B", "t"] : List String)[(0 - 5) + j.1]?) ∧
      (0 = 0 → sec = (["<<<<<<< A", "x", ">>>>>>> B", "t"] : List String).take
        (min (2 + 5 + 1) (["<<<<<<< A", "x", ">>>>>>> B", "t"] : List String).length)) :=
  c8_margin_clamping ["<<<<<<< A", "x", ">>>>>>> B", "t"] 5 0 0 2 (by decide)

/-! ## Claim C10 -/

/-- C10: for every source and target line sequence, `get_match_position`
returns 0 or a valid index into the source lines whose stripped text equals
some stripped target line — never an index beyond the source bounds. -/
theorem c10_match_position_valid (source_lines target_lines : List String) :
    get_match_position source_lines target_lines = 0 ∨
    (get_match_position source_lines target_lines < source_lines.length ∧
      ∃ t ∈ target_lines, ∃ l,
        source_lines[get_match_position source_lines target_lines]? = some l ∧
        pyStrip l = pyStrip t) := by
  induction target_lines using List.reverseRecOn with
  | nil => left; rfl
  | append_singleton ts t ih =>
    unfold get_match_position at ih ⊢
    rw [List.foldl_append, List.foldl_cons, List.foldl_nil]
    rcases hfi : firstIdx (fun line => pyStrip line == pyStrip t) source_lines with _ | i
    · simp only [hfi]
      rcases ih with h0 | ⟨hlt, t', ht', l, hl, he⟩
      · left; exact h0
      · right; exact ⟨hlt, t', by simp [ht'], l, hl, he⟩
    · simp only [hfi]
      obtain ⟨x, hx, hpx⟩ := firstIdx_some hfi
      have hxe : pyStrip x = pyStrip t := eq_of_beq hpx
      have hxlt : i < source_lines.length := by
        rcases List.getElem?_eq_some.mp hx with ⟨hlt, _⟩
        exact hlt
      rcases ih with h0 | ⟨hlt, t', ht', l, hl, he⟩
      · rw [h0]
        right
        refine ⟨by simpa using hxlt, t, by simp, x, ?_, hxe⟩
        simpa using hx
      · rcases Nat.le_total i (List.foldl _ 0 ts) with hle | hle
        · rw [Nat.max_eq_right hle]
          right
          exact ⟨hlt, t', by simp [ht'], l, hl, he⟩
        · rw [Nat.max_eq_left hle]
          right
          exact ⟨hxlt, t, by simp, x, hx, hxe⟩

/-! ## Claim C9 -/

/-- C9: in `get_conflict_sections` (both extractor scripts), a conflict whose
start marker sits on line 0 is never extracted: if line 0 starts with
`<<<<<<<`, no recorded marker pair starts at index 0, so no section for that
pair appears in the result. -/
theorem c9_line0_conflict_never_closed (content : List String)
    (_hhead : ∃ l, content.head? = some l ∧ pyStartsWith start_marker l = true) :
    ∀ e, (0, e) ∉ gcsPairs content := by
  intro e hmem
  exact gcsGo_fst_ne_zero content 0 none (0, e) hmem rfl

/-- Witness for C9 at a file whose conflict starts on line 0: the scan records
nothing, so in particular no pair `(0, 4)`. -/
theorem c9_witness :
    (0, 4) ∉ gcsPairs ["<<<<<<< A", "left", "=======", "right", ">>>>>>> B"] :=
  c9_line0_conflict_never_closed ["<<<<<<< A", "left", "=======", "right", ">>>>>>> B"]
    ⟨"<<<<<<< A", rfl, by decide⟩ 4

/-! ## Claim C2 (corrected) -/

/-- Counterexample to C2 as stated: with `"X"` (stripped) at exactly positions
2 and 5 of the reference and the one-line target `["X"]`, `get_match_position`
does not return 5 — the inner scan breaks at the *first* matching reference
line, so the single target line contributes index 2. -/
theorem c2_counterexample :
    get_match_position ["a", "b", "X", "c", "d", "X"] ["X"] = 2 ∧
    get_match_position ["a", "b", "X", "c", "d", "X"] ["X"] ≠ 5 := by decide

/-- C2 (amended): for every reference whose stripped lines equal `"X"` at
exactly positions 2 and 5 and nowhere else, and the one-line target `["X"]`,
`get_match_position` returns 2, the earlier (first) occurrence. -/
theorem c2_first_occurrence (ref : List String) (h5 : 5 < ref.length)
    (hx : ∀ i, (hi : i < ref.length) →
      (pyStrip (ref.get ⟨i, hi⟩) = "X" ↔ (i = 2 ∨ i = 5))) :
    get_match_position ref ["X"] = 2 := by
  match ref with
  | a :: b :: c :: rest =>
    have hX : pyStrip "X" = "X" := by decide
    have ha : pyStrip a ≠ "X" := by
      intro heq
      have := (hx 0 (by simp)).mp (by simpa using heq)
      omega
    have hb : pyStrip b ≠ "X" := by
      intro heq
      have := (hx 1 (by simp)).mp (by simpa using heq)
      omega
    have hc : pyStrip c = "X" := by
      simpa using (hx 2 (by simp)).mpr (Or.inl rfl)
    have hqa : ¬ pyStrip a = pyStrip "X" := by rw [hX]; exact ha
    have hqb : ¬ pyStrip b = pyStrip "X" := by rw [hX]; exact hb
    have hqc : pyStrip c = pyStrip "X" := by rw [hX]; exact hc
    simp [get_match_position, firstIdx, hqa, hqb, hqc]

/-- Witness for the amended C2 at a concrete reference (`"X "` strips to
`"X"`, so the stripped lines equal `"X"` at exactly positions 2 and 5). -/
theorem c2_witness :
    get_match_position ["p", "q", "X", "r", "s", "X "] ["X"] = 2 :=
  c2_first_occurrence ["p", "q", "X", "r", "s", "X "] (by decide) (by decide)

/-! ## Claim C3 (code bug) -/

/-- C3: evaluating `get_resolved_contents` at a section whose margins match
nowhere in the reference (so neither position can be established).  The claim
says the section yields the `"NOT FOUND"` sentinel and nothing is raised; the
code raises a TypeError at the `for` statement because
`get_marker_head_tail` has no return statement and hands back None. -/
theorem c3_code_eval :
    get_resolved_contents ["x"]
        [["a", "<<<<<<< A", "1", "=======", "2", ">>>>>>> B", "b"]] =
      Except.error PyError.typeError := rfl

/-! ## Claim C4 (corrected) -/

/-- Counterexample to C4 as stated: a section whose header `"hdr"` and footer
`"ftr"` match the reference at the established (nonzero) positions 1 and 3.
The claim predicts resolved lines `content[2:3] = ["mid"]`; the code raises a
TypeError at the `for` statement (`get_marker_head_tail` returns None), and
even its per-section branch for established positions — reached here with the
very markers the section yields — raises a NameError at the undefined name
`contents`. -/
theorem c4_counterexample :
    get_resolved_contents ["z", "hdr", "mid", "ftr"]
        [["hdr", "<<<<<<< A", "1", "=======", "2", ">>>>>>> B", "ftr"]] =
      Except.error PyError.typeError ∧
    markerHeadTailEntry ["hdr", "<<<<<<< A", "1", "=======", "2", ">>>>>>> B", "ftr"] =
      (some ["hdr"], some ["ftr"]) ∧
    get_match_position ["z", "hdr", "mid", "ftr"] ["hdr"] = 1 ∧
    get_match_position ["z", "hdr", "mid", "ftr"] ["ftr"] = 3 ∧
    resolvedLoop ["z", "hdr", "mid", "ftr"] [(some ["hdr"], some ["ftr"])] =
      Except.error PyError.nameError :=
  ⟨rfl, rfl, rfl, rfl, rfl⟩

/-- C4 (amended): `get_resolved_contents` never produces the slice
`referenceLines[startPos+1 : endPos]` — it raises a TypeError for every input
(`get_marker_head_tail` falls off its end and returns None, which the caller
iterates), and its per-section branch for established (nonzero) positions,
were it reached, would raise a NameError at `len(contents)` (undefined
name). -/
theorem c4_resolved_contents_raises :
    (∀ (content : List String) (sections : List (List String)),
        get_resolved_contents content sections = Except.error PyError.typeError) ∧
    (∀ (content h f : List String)
        (rest : List (Option (List String) × Option (List String))),
        get_match_position content h ≠ 0 → get_match_position content f ≠ 0 →
        resolvedLoop content ((some h, some f) :: rest) =
          Except.error PyError.nameError) := by
  constructor
  · intro content sections; rfl
  · intro content h f rest h1 h2
    simp [resolvedLoop, h1, h2]

/-- Witness for the amended C4: both conjuncts applied at concrete inputs. -/
theorem c4_witness :
    get_resolved_contents ["w"] [] = Except.error PyError.typeError ∧
    resolvedLoop ["z0", "h1", "f1"] [(some ["h1"], some ["f1"])] =
      Except.error PyError.nameError :=
  ⟨c4_resolved_contents_raises.1 ["w"] [],
   c4_resolved_contents_raises.2 ["z0", "h1", "f1"] ["h1"] ["f1"] []
     (by decide) (by decide)⟩

/-! ## Supporting lemmas for the replay state machine (claim C1) -/

/-- Handling the conflicted files never changes the git state: it only reads
files and prints (or raises). -/
theorem handleFilesGo_state (fa : Option Nat) :
    ∀ (files : List String) (k : Nat) (s : GitState),
      (handleFilesGo fa files k s).2 = s := by
  intro files
  induction files with
  | nil => intro k s; rfl
  | cons f rest ih =>
    intro k s
    unfold handleFilesGo
    split
    · rfl
    · exact ih _ _

/-- `try: body  except Exception: print` always succeeds and ends in the
body's final state. -/
theorem gitTry_swallow (x : GitM Unit) (s s' : GitState) (h : (x s).2 = s') :
    gitTry x (fun _e => gitPure ()) s = (Except.ok (), s') := by
  unfold gitTry
  rcases hx : x s with ⟨r, s''⟩
  rw [hx] at h
  replace h : s'' = s' := h
  subst h
  cases r with
  | ok a => rfl
  | error e => rfl

/-- Run a `finally` whose body and cleanup both succeed. -/
theorem gitFinally_ok {α : Type} (body : GitM α) (fin : GitM Unit) (s : GitState)
    (a : α) (sb sf : GitState)
    (hb : body s = (Except.ok a, sb)) (hf : fin sb = (Except.ok (), sf)) :
    gitFinally body fin s = (Except.ok a, sf) := by
  unfold gitFinally
  simp [hb, hf]

/-- `find?` locates the appended temp-branch entry when no other entry is
named `temp-branch`. -/
theorem find?_temp_append :
    ∀ (bs : List (String × String)) (c : String),
      (∀ e ∈ bs, (e.1 == "temp-branch") = false) →
      List.find? (fun e => e.1 == "temp-branch") (bs ++ [("temp-branch", c)]) =
        some ("temp-branch", c) := by
  intro bs
  induction bs with
  | nil => intro c _; rfl
  | cons e rest ih =>
    intro c hno
    have he := hno e (List.mem_cons_self e rest)
    have htail := ih c (fun x hx => hno x (List.mem_cons_of_mem e hx))
    simp [List.find?, he, htail]

/-- Filtering the temp branch away removes exactly the appended entry. -/
theorem filter_temp_append :
    ∀ (bs : List (String × String)) (c : String),
      (∀ e ∈ bs, (e.1 == "temp-branch") = false) →
      (bs ++ [("temp-branch", c)]).filter (fun e => e.1 != "temp-branch") = bs := by
  intro bs
  induction bs with
  | nil => intro c _; rfl
  | cons e rest ih =>
    intro c hno
    have he := hno e (List.mem_cons_self e rest)
    have htail := ih c (fun x hx => hno x (List.mem_cons_of_mem e hx))
    have hbne : (e.1 != "temp-branch") = true := by simp [bne, he]
    simp only [List.cons_append, List.filter_cons, hbne, if_true, htail]

/-- `reset --hard` on the temp branch rewrites only the appended entry. -/
theorem setBranchCommit_temp_append :
    ∀ (bs : List (String × String)) (hd c : String),
      (∀ e ∈ bs, (e.1 == "temp-branch") = false) →
      setBranchCommit (bs ++ [("temp-branch", hd)]) "temp-branch" c =
        bs ++ [("temp-branch", c)] := by
  intro bs
  induction bs with
  | nil => intro hd c _; simp [setBranchCommit]
  | cons e rest ih =>
    intro hd c hno
    have he := hno e (List.mem_cons_self e rest)
    have htail := ih hd c (fun x hx => hno x (List.mem_cons_of_mem e hx))
    simp only [setBranchCommit, List.cons_append, List.map_cons] at htail ⊢
    rw [htail, he]
    simp

/-- The state the inner try-body leaves behind: untouched when the merge
fails before starting, otherwise the merge-in-progress state — whether or
not the merge command or the conflict handling raised. -/
theorem replay_inner_snd (mc : MergeCase) (s : GitState) :
    (replay_inner mc s).2 =
      if mc.mergeRaises && !mc.mergeStarts then s
      else { s with mergeInProgress := true, dirty := true } := by
  rcases hr : mc.mergeRaises with _ | _
  · simp [replay_inner, merge_no_commit, get_conflict_files, Bind.bind, gitBind,
      gitGet, gitSet, gitPure, gitThrow, hr, handleFilesGo_state]
  · rcases hstt : mc.mergeStarts with _ | _
    · simp [replay_inner, merge_no_commit, Bind.bind, gitBind, gitGet, gitSet,
        gitPure, gitThrow, hr, hstt]
    · simp [replay_inner, merge_no_commit, Bind.bind, gitBind, gitGet, gitSet,
        gitPure, gitThrow, hr, hstt]

/-- The inner `finally` always succeeds from a state on the temp branch with
no stray temp entries: the merge (if any) is aborted, HEAD returns to the
captured commit, the temp branch is deleted. -/
theorem replay_cleanup_eval (ch c : String) (bs : List (String × String))
    (t : GitState)
    (hbr : t.branch = some "temp-branch")
    (hbs : t.branches = bs ++ [("temp-branch", c)])
    (hno : ∀ e ∈ bs, (e.1 == "temp-branch") = false)
    (hdm : t.mergeInProgress = false → t.dirty = false) :
    replay_cleanup ch "temp-branch" t =
      (Except.ok (),
        { t with branch := none, head := ch, mergeInProgress := false,
                 dirty := false, branches := bs }) := by
  have hfind := find?_temp_append bs c hno
  have hfilter := filter_temp_append bs c hno
  rcases hmp : t.mergeInProgress with _ | _
  · have hd := hdm hmp
    simp [replay_cleanup, gitTry, abort_merge, checkout_commit, delete_branch,
      Bind.bind, gitBind, gitGet, gitSet, gitPure, gitThrow, hmp, hd, hbr, hbs,
      lookupBranch, hfind, hfilter]
  · simp [replay_cleanup, gitTry, abort_merge, checkout_commit, delete_branch,
      Bind.bind, gitBind, gitGet, gitSet, gitPure, gitThrow, hmp, hbr, hbs,
      lookupBranch, hfind, hfilter]

/-- One replay iteration, from any clean state with no temp branch, always
succeeds and ends detached at the captured head, with no merge in progress,
a clean tree, and the branch list restored — whatever the merge outcome and
even when conflict handling raises partway. -/
theorem replay_iteration_restores (ch : String) (mc : MergeCase) (s : GitState)
    (_hmi : s.mergeInProgress = false)
    (hno : ∀ e ∈ s.branches, (e.1 == "temp-branch") = false) :
    replay_iteration ch mc s =
      (Except.ok (),
        { s with head := ch, branch := none, dirty := false,
                 mergeInProgress := false }) := by
  have hf0 : List.find? (fun e => e.1 == "temp-branch") s.branches = none :=
    List.find?_eq_none.mpr (fun x hx => by simp [hno x hx])
  have h1 : create_temp_branch s =
      (Except.ok "temp-branch",
        { s with branches := s.branches ++ [("temp-branch", s.head)],
                 branch := some "temp-branch" }) := by
    simp [create_temp_branch, Bind.bind, gitBind, gitGet, gitSet, gitPure,
      lookupBranch, hf0]
  have h2 : reset_hard mc.parent1
      { s with branches := s.branches ++ [("temp-branch", s.head)],
               branch := some "temp-branch" } =
      (Except.ok (),
        { s with head := mc.parent1, branch := some "temp-branch",
                 branches := s.branches ++ [("temp-branch", mc.parent1)],
                 dirty := false, mergeInProgress := false }) := by
    simp [reset_hard, Bind.bind, gitBind, gitGet, gitSet,
      setBranchCommit_temp_append s.branches s.head mc.parent1 hno]
  have hred : replay_iteration ch mc s =
      gitFinally (gitTry (replay_inner mc) (fun _e => gitPure ()))
        (replay_cleanup ch "temp-branch")
        { s with head := mc.parent1, branch := some "temp-branch",
                 branches := s.branches ++ [("temp-branch", mc.parent1)],
                 dirty := false, mergeInProgress := false } := by
    simp [replay_iteration, Bind.bind, gitBind, h1, h2]
  rw [hred]
  have hsnd := replay_inner_snd mc
    { s with head := mc.parent1, branch := some "temp-branch",
             branches := s.branches ++ [("temp-branch", mc.parent1)],
             dirty := false, mergeInProgress := false }
  rcases hcond : (mc.mergeRaises && !mc.mergeStarts) with _ | _
  · -- the merge began (or succeeded): cleanup aborts it
    rw [hcond] at hsnd
    simp only [Bool.false_eq_true, if_false] at hsnd
    refine gitFinally_ok _ _ _ () _ _ (gitTry_swallow _ _ _ hsnd) ?_
    rw [replay_cleanup_eval ch mc.parent1 s.branches _ rfl rfl hno
      (by intro hcontra; simp at hcontra)]
  · -- the merge never started: nothing to abort, cleanup still succeeds
    rw [hcond] at hsnd
    simp only [if_true] at hsnd
    refine gitFinally_ok _ _ _ () _ _ (gitTry_swallow _ _ _ hsnd) ?_
    rw [replay_cleanup_eval ch mc.parent1 s.branches _ rfl rfl hno
      (fun _ => rfl)]

/-- Iterating over all merge points preserves the branch list and stash and
keeps the tree clean with no merge pending. -/
theorem iterAll_restores (ch : String) :
    ∀ (cases : List MergeCase) (s : GitState),
      s.mergeInProgress = false → s.dirty = false →
      (∀ e ∈ s.branches, (e.1 == "temp-branch") = false) →
      ∃ s', iterAll ch cases s = (Except.ok (), s') ∧
        s'.branches = s.branches ∧ s'.stashDepth = s.stashDepth ∧
        s'.mergeInProgress = false ∧ s'.dirty = false := by
  intro cases
  induction cases with
  | nil =>
    intro s hmi hd _hno
    exact ⟨s, rfl, rfl, rfl, hmi, hd⟩
  | cons mc rest ih =>
    intro s hmi hd hno
    have hit := replay_iteration_restores ch mc s hmi hno
    obtain ⟨s', heq, hb, hsd, hm, hdd⟩ :=
      ih { s with head := ch, branch := none, dirty := false,
                  mergeInProgress := false } rfl rfl hno
    refine ⟨s', ?_, hb, hsd, hm, hdd⟩
    simp [iterAll, Bind.bind, gitBind, hit, heq]

/-! ## Claim C1 -/

/-- C1: (a) every merge-replay iteration — whatever the merge outcome, and
even when the conflict-handling caller raises partway through the conflicted
files — succeeds, aborts any in-progress merge, returns HEAD to the original
commit, and deletes the disposable temp branch before the iteration ends;
(b) a whole run from a consistent state on a branch ends back in exactly the
original state: original branch and head, stashed changes re-applied (the
dirty flag and stash depth are restored), no merge in progress, no temp
branch remaining. -/
theorem c1_merge_replay_cleanup :
    (∀ (current_head : String) (mc : MergeCase) (s : GitState),
      s.mergeInProgress = false →
      (∀ e ∈ s.branches, (e.1 == "temp-branch") = false) →
      replay_iteration current_head mc s =
        (Except.ok (),
          { s with head := current_head, branch := none, dirty := false,
                   mergeInProgress := false })) ∧
    (∀ (cases : List MergeCase) (s : GitState) (b0 : String),
      s.mergeInProgress = false →
      (∀ e ∈ s.branches, (e.1 == "temp-branch") = false) →
      s.branch = some b0 →
      lookupBranch s b0 = some s.head →
      replay_run cases s = (Except.ok (), s)) := by
  constructor
  · exact replay_iteration_restores
  · intro cases s b0 hmi hno hbranch hlook
    obtain ⟨shead, sbranch, sbranches, smip, sdirty, sdepth⟩ := s
    simp only at hmi hbranch hno hlook
    subst hmi
    subst hbranch
    -- the branch entry `find?` will locate
    unfold lookupBranch at hlook
    obtain ⟨e, hfe, he2⟩ := Option.map_eq_some'.mp hlook
    have hp := List.find?_some hfe
    have he' : e = (b0, shead) := by
      rcases e with ⟨e1, e2⟩
      simp only at hp he2
      have h1 : e1 = b0 := by simpa using hp
      rw [h1, he2]
    rw [he'] at hfe
    rcases hsd : sdirty with _ | _
    · -- no local modifications: nothing stashed, nothing popped
      subst hsd
      obtain ⟨s', heq, hb, hsdep, hm, hdd⟩ := iterAll_restores shead cases
        (GitState.mk shead (some b0) sbranches false false sdepth) rfl rfl hno
      simp [replay_run, replay_main, gitTry, gitFinally, Bind.bind, gitBind,
        get_current_head, get_current_branch, get_status_nonempty, gitGet,
        gitPure, gitSet, stash_changes, pop_stash, checkout_branch,
        lookupBranch, heq, hfe, hb, hsdep, hm, hdd]
    · -- local modifications: stashed first, popped and re-applied at the end
      subst hsd
      obtain ⟨s', heq, hb, hsdep, hm, hdd⟩ := iterAll_restores shead cases
        (GitState.mk shead (some b0) sbranches false false (sdepth + 1))
        rfl rfl hno
      simp [replay_run, replay_main, gitTry, gitFinally, Bind.bind, gitBind,
        get_current_head, get_current_branch, get_status_nonempty, gitGet,
        gitPure, gitSet, stash_changes, pop_stash, checkout_branch,
        lookupBranch, heq, hfe, hb, hsdep, hm, hdd]

/-- Witness for C1 at a concrete dirty repository on `main` with a conflicted
merge point whose conflict handling raises at the first file. -/
theorem c1_witness :
    replay_iteration "c0"
        { parent1 := "p1", parent2 := "p2", mergeStarts := true,
          mergeRaises := true, conflictFiles := ["f.txt"], faultAt := some 0 }
        { head := "c0", branch := some "main", branches := [("main", "c0")],
          mergeInProgress := false, dirty := false, stashDepth := 0 } =
      (Except.ok (),
        { head := "c0", branch := none, branches := [("main", "c0")],
          mergeInProgress := false, dirty := false, stashDepth := 0 }) ∧
    replay_run
        [{ parent1 := "p1", parent2 := "p2", mergeStarts := true,
           mergeRaises := true, conflictFiles := ["f.txt"], faultAt := some 0 }]
        { head := "c0", branch := some "main", branches := [("main", "c0")],
          mergeInProgress := false, dirty := true, stashDepth := 0 } =
      (Except.ok (),
        { head := "c0", branch := some "main", branches := [("main", "c0")],
          mergeInProgress := false, dirty := true, stashDepth := 0 }) :=
  ⟨c1_merge_replay_cleanup.1 "c0" _ _ rfl (by decide),
   c1_merge_replay_cleanup.2 _ _ "main" rfl (by decide) rfl rfl⟩

/-! ## Claim C6 -/

/-- Projecting the dated pool back to its patch files recovers exactly the
pool filtered to the dated patches. -/
theorem dated_map_fst (parse : String → Option Nat) (pool : List PatchFile) :
    (pool.filterMap
      (fun p => (get_patch_date parse p.lines).map (fun d => (p, d)))).map Prod.fst =
    pool.filter (fun p => (get_patch_date parse p.lines).isSome) := by
  induction pool with
  | nil => rfl
  | cons p rest ih =>
    rcases hd : get_patch_date parse p.lines with _ | d
    · simp [List.filterMap_cons, List.filter_cons, hd, ih]
    · simp [List.filterMap_cons, List.filter_cons, hd, ih]

/-- Every entry of the dated pool carries its patch's parsed date. -/
theorem dated_mem (parse : String → Option Nat) (pool : List PatchFile) :
    ∀ x ∈ pool.filterMap
        (fun p => (get_patch_date parse p.lines).map (fun d => (p, d))),
      get_patch_date parse x.1.lines = some x.2 := by
  intro x hx
  obtain ⟨p, _hp, hpx⟩ := List.mem_filterMap.mp hx
  obtain ⟨d, hd, hpd⟩ := Option.map_eq_some'.mp hpx
  cases hpd
  simpa using hd

/-- C6: the sequencer drops exactly the patches lacking a parseable `Date:`
timestamp (the output is a permutation of the pooled input filtered to the
dated patches), lists the rest in ascending timestamp order, and excluding an
undated patch from an input set leaves the sequenced output — and hence the
relative order of the remaining patches — unchanged. -/
theorem c6_chronological_sequence (parse : String → Option Nat) :
    (∀ patch_dirs : List (List PatchFile),
      (sequence_patch_files parse patch_dirs).Perm
        (patch_dirs.flatten.filter
          (fun p => (get_patch_date parse p.lines).isSome)) ∧
      List.Pairwise (fun p q : PatchFile =>
          ∃ dp dq, get_patch_date parse p.lines = some dp ∧
            get_patch_date parse q.lines = some dq ∧ dp ≤ dq)
        (sequence_patch_files parse patch_dirs)) ∧
    (∀ (pre post : List (List PatchFile)) (A B : List PatchFile) (u : PatchFile),
      get_patch_date parse u.lines = none →
      sequence_patch_files parse (pre ++ (A ++ u :: B) :: post) =
        sequence_patch_files parse (pre ++ (A ++ B) :: post)) := by
  constructor
  · intro patch_dirs
    constructor
    · unfold sequence_patch_files
      rw [← dated_map_fst parse patch_dirs.flatten]
      exact (List.perm_insertionSort _ _).map Prod.fst
    · unfold sequence_patch_files
      haveI : IsTotal (PatchFile × Nat) (fun a b => a.2 ≤ b.2) :=
        ⟨fun a b => Nat.le_total a.2 b.2⟩
      haveI : IsTrans (PatchFile × Nat) (fun a b => a.2 ≤ b.2) :=
        ⟨fun a b c hab hbc => le_trans hab hbc⟩
      have hs := List.sorted_insertionSort (fun a b : PatchFile × Nat => a.2 ≤ b.2)
        (patch_dirs.flatten.filterMap
          (fun p => (get_patch_date parse p.lines).map (fun d => (p, d))))
      have hmemd : ∀ x ∈ List.insertionSort (fun a b : PatchFile × Nat => a.2 ≤ b.2)
          (patch_dirs.flatten.filterMap
            (fun p => (get_patch_date parse p.lines).map (fun d => (p, d)))),
          get_patch_date parse x.1.lines = some x.2 := by
        intro x hx
        exact dated_mem parse _ x ((List.perm_insertionSort _ _).mem_iff.mp hx)
      rw [List.pairwise_map]
      exact hs.imp_of_mem (fun {a b} ha hb hab =>
        ⟨a.2, b.2, hmemd a ha, hmemd b hb, hab⟩)
  · intro pre post A B u hu
    unfold sequence_patch_files
    have hpool : (pre ++ (A ++ u :: B) :: post).flatten.filterMap
        (fun p => (get_patch_date parse p.lines).map (fun d => (p, d))) =
        (pre ++ (A ++ B) :: post).flatten.filterMap
        (fun p => (get_patch_date parse p.lines).map (fun d => (p, d))) := by
      simp [List.flatten_append, List.flatten_cons, List.filterMap_append,
        List.filterMap_cons, hu]
    rw [hpool]

/-- Witness for C6: with a toy timestamp parser, dropping the undated patch
from the input set leaves the sequenced output unchanged. -/
theorem c6_witness :
    get_patch_date demoParse ["undated patch"] = none ∧
    sequence_patch_files demoParse
        [[⟨"0001.patch", ["Date: 1"]⟩, ⟨"u.patch", ["undated patch"]⟩,
          ⟨"0002.patch", ["Date: 2"]⟩]] =
      sequence_patch_files demoParse
        [[⟨"0001.patch", ["Date: 1"]⟩, ⟨"0002.patch", ["Date: 2"]⟩]] :=
  ⟨by decide,
   (c6_chronological_sequence demoParse).2 [] [] [⟨"0001.patch", ["Date: 1"]⟩]
     [⟨"0002.patch", ["Date: 2"]⟩] ⟨"u.patch", ["undated patch"]⟩ (by decide)⟩

/-! ## Claim C5 (code bug) -/

/-- C5: on nonzero exit `run_git_command` raises a failure carrying the
command line and the stripped stderr, as the claim says; but on zero exit
with `combineStdErr` set, the returned text is the stripped stdout alone —
`error_result` is reassigned from stderr only inside the branch that raises,
so the appended error text is always the empty string, contradicting the
claim's "with the captured error text appended". -/
theorem c5_code_eval :
    run_git_command ["git", "merge", "BRANCH", "--no-commit", "--no-ff"]
        { returncode := 1, stdout := "", stderr := " conflict error " } false =
      Except.error "Git command failed: git merge BRANCH --no-commit --no-ff\nconflict error" ∧
    run_git_command ["git", "merge", "BRANCH", "--no-commit", "--no-ff"]
        { returncode := 0, stdout := "Auto-merging file", stderr := "warning: conflict hints" }
        true =
      Except.ok "Auto-merging file" :=
  ⟨rfl, rfl⟩

end PyGitUtil
